import Mathlib

/-!
# Verification of the sidecar readiness/health lifecycle

Shallow embedding of the readiness/health lifecycle of the `pegnia/sidecar`
repository.  The repository contains two variants of the same sidecar:

* the *pegnia* variant: `internal/agones/manager.go` (`RunManager`,
  `probeGameServer`), the probe in `src/unnamed/part_000`
  (`probe.PingProbe.Probe`), and the entry point in `src/unnamed/part_002`;
* the *agnostic* variant: `main.go` (`main`, `runMonitor`) and
  `internal/probe/probe.go` (`probe.PingProbe.Probe`).

Time is modelled in seconds as `Nat`, starting at 0 when the lifecycle
function is entered.  A `time.Ticker` with period `d` delivers its first tick
no earlier than `d` after creation and tick `i` (0-based) no earlier than
`(i+1)*d`; the embedding uses the earliest schedule `(i+1)*d`, so every
stated lower bound on event times holds for every real schedule.

The external world (outcome of each socket operation, outcomes of the Agones
SDK calls, cancellation of the context, and the branch chosen by each `select`)
is an explicit environment.  Go's `select` chooses uniformly at random among
the ready cases, so when the context is done and a tick is simultaneously
pending, either branch can be taken; `Env.valid` records the only hard
constraint: the `ctx.Done()` branch can fire only when the context is done.
-/

/-- Network-level behaviour of the environment during one probe attempt:
for each socket operation the attempt may perform, whether it fails
(`some errorMessage`) or succeeds (`none`). -/
structure AttemptEnv where
  dialErr : Option String
  writeErr : Option String
  readErr : Option String
deriving DecidableEq

/-- Socket operations a single probe attempt can perform, in order. -/
inductive SockAction where
  | dial (protocol : String) (address : String)
  | write (payload : String)
  | read
  | close
deriving DecidableEq

/-- Error causes a probe attempt or the probe loop can produce.
`ctxCanceled` is Go's `context.Canceled`, returned by `ctx.Err()`. -/
inductive ProbeError where
  | dialFailed (msg : String)
  | writeFailed (msg : String)
  | unsupportedProtocol (protocol : String)
  | ctxCanceled
deriving DecidableEq

/-- Observable events of a lifecycle run, with the time they occur. -/
inductive Event where
  | sleep (duration : Nat)
  | probeAttempt (time : Nat) (ok : Bool)
  | ready (time : Nat) (ok : Bool)
  | health (time : Nat) (ok : Bool)
deriving DecidableEq

/-- ASCII lower-casing of one character, as `strings.ToLower` acts on the
ASCII protocol strings involved here. -/
def lowerChar (c : Char) : Char :=
  if 65 ≤ c.toNat ∧ c.toNat ≤ 90 then Char.ofNat (c.toNat + 32) else c

/-- Embedding of `strings.ToLower` on the (ASCII) protocol string. -/
def lowerString (s : String) : String := ⟨s.data.map lowerChar⟩

/-- Embedding of `net.JoinHostPort`: bracket the host when it contains a colon (IPv6). -/
def joinHostPort (host port : String) : String :=
  if (':' ∈ host.data) then "[" ++ host ++ "]:" ++ port
  else host ++ ":" ++ port

/-- One iteration of the loop body of `probeGameServer`
(`internal/agones/manager.go`): a bare `net.DialTimeout(protocol, address,
cfg.PingTimeout)`; on success the connection is closed immediately and the
attempt succeeds; there is no write and no read for any protocol. -/
def dialAttempt (protocol address : String) (a : AttemptEnv) :
    List SockAction × Option ProbeError :=
  match a.dialErr with
  | some e => ([.dial protocol address], some (.dialFailed e))
  | none => ([.dial protocol address, .close], none)

/-- One iteration of the loop body of the pegnia `PingProbe.Probe`
(`src/unnamed/part_000`): TCP dials and closes; UDP dials, writes the
literal bytes "ping", then (only when the write succeeded) attempts a
bounded diagnostic read whose outcome is ignored, and closes; any other
protocol yields the distinct `unsupported protocol` error without touching
the network. -/
def pingAttempt (protocol address : String) (a : AttemptEnv) :
    List SockAction × Option ProbeError :=
  if protocol = "tcp" then
    match a.dialErr with
    | some e => ([.dial protocol address], some (.dialFailed e))
    | none => ([.dial protocol address, .close], none)
  else if protocol = "udp" then
    match a.dialErr with
    | some e => ([.dial protocol address], some (.dialFailed e))
    | none =>
      match a.writeErr with
      | some e => ([.dial protocol address, .write "ping", .close],
          some (.writeFailed e))
      | none => ([.dial protocol address, .write "ping", .read, .close], none)
  else
    ([], some (.unsupportedProtocol protocol))

/-- One iteration of the loop body of the agnostic `PingProbe.Probe`
(`internal/probe/probe.go`): TCP dials and closes; every other protocol
value is handled by the `else` branch, which routes it through the ordinary
`net.DialTimeout` with the raw protocol string and then writes "ping";
there is no distinct unsupported-protocol error and no read. -/
def pingAttemptSimple (protocol address : String) (a : AttemptEnv) :
    List SockAction × Option ProbeError :=
  if protocol = "tcp" then
    match a.dialErr with
    | some e => ([.dial protocol address], some (.dialFailed e))
    | none => ([.dial protocol address, .close], none)
  else
    match a.dialErr with
    | some e => ([.dial protocol address], some (.dialFailed e))
    | none =>
      match a.writeErr with
      | some e => ([.dial protocol address, .write "ping", .close],
          some (.writeFailed e))
      | none => ([.dial protocol address, .write "ping", .close], none)

/-- Environment of one lifecycle run: per-iteration network behaviour,
SDK call outcomes, when the context is done, and which branch each
`select` takes (`true` = the `ctx.Done()` branch, `false` = the tick). -/
structure Env where
  probeCtxDone : Nat → Bool
  probeSel : Nat → Bool
  attempts : Nat → AttemptEnv
  readyOk : Bool
  hbCtxDone : Nat → Bool
  hbSel : Nat → Bool
  healthOk : Nat → Bool

/-- A realizable environment: the `ctx.Done()` branch of a `select` can be
taken only when the context is done, and context-doneness is monotone
(a cancelled context stays cancelled).  The converse is NOT required:
Go's `select` chooses uniformly at random among ready cases, so the tick
branch may be taken even while the context is done, whenever a tick is
simultaneously pending. -/
def Env.valid (e : Env) : Prop :=
  (∀ i, e.probeSel i = true → e.probeCtxDone i = true) ∧
  (∀ i, e.hbSel i = true → e.hbCtxDone i = true) ∧
  (∀ i j, i ≤ j → e.probeCtxDone i = true → e.probeCtxDone j = true) ∧
  (∀ i j, i ≤ j → e.hbCtxDone i = true → e.hbCtxDone j = true)

/-- The shared retry-loop skeleton of `probeGameServer` and both
`PingProbe.Probe` variants:

    for { select {
      case <-ctx.Done():  return ctx.Err()
      case <-ticker.C:    attempt once; if ok return nil; log and retry
    } }

`att` is the loop body (one probe attempt), `t0` the creation time of the
ticker, `retry` its period, `i` the iteration index.  Returns the emitted
events, the completion time, and `none` when the fuel ran out (the loop is
still running), `some (.ok ())` for Go's `return nil`, `some (.error e)`
for a non-nil error return. -/
def probeLoop (att : AttemptEnv → List SockAction × Option ProbeError)
    (env : Env) (t0 retry : Nat) :
    Nat → Nat → List Event × Nat × Option (Except ProbeError Unit)
  | 0, i => ([], t0 + i * retry, none)
  | fuel + 1, i =>
    if env.probeSel i then
      ([], t0 + i * retry, some (.error .ctxCanceled))
    else
      let t := t0 + (i + 1) * retry
      match (att (env.attempts i)).2 with
      | none => ([.probeAttempt t true], t, some (.ok ()))
      | some _ =>
        let rest := probeLoop att env t0 retry fuel (i + 1)
        (.probeAttempt t false :: rest.1, rest.2.1, rest.2.2)

/-- Configuration relevant to the lifecycle (`config.AgonesConfig` /
`config.Config`); durations in seconds. -/
structure Cfg where
  initialDelay : Nat
  healthInterval : Nat
  pingHost : String
  pingPort : String
  pingProtocol : String

/-- Embedding of `probeGameServer` (`internal/agones/manager.go`): lower-case the
protocol, join host and port, then run the retry loop with the hard-coded
2-second retry ticker, the loop body being a bare dial. -/
def probeGameServer (cfg : Cfg) (env : Env) (t0 fuel : Nat) :
    List Event × Nat × Option (Except ProbeError Unit) :=
  probeLoop
    (dialAttempt (lowerString cfg.pingProtocol) (joinHostPort cfg.pingHost cfg.pingPort))
    env t0 2 fuel 0

/-- The pegnia `PingProbe.Probe` (`src/unnamed/part_000`): lower-case the
protocol, join host and port, then run the retry loop with the hard-coded
5-second retry ticker and the full tcp/udp/unsupported loop body. -/
def pingProbePegnia (cfg : Cfg) (env : Env) (t0 fuel : Nat) :
    List Event × Nat × Option (Except ProbeError Unit) :=
  probeLoop
    (pingAttempt (lowerString cfg.pingProtocol) (joinHostPort cfg.pingHost cfg.pingPort))
    env t0 5 fuel 0

/-- The agnostic `PingProbe.Probe` (`internal/probe/probe.go`): lower-case
the protocol, join host and port, then run the retry loop with the
hard-coded 5-second retry ticker and the tcp/else loop body. -/
def pingProbeAgnostic (cfg : Cfg) (env : Env) (t0 fuel : Nat) :
    List Event × Nat × Option (Except ProbeError Unit) :=
  probeLoop
    (pingAttemptSimple (lowerString cfg.pingProtocol) (joinHostPort cfg.pingHost cfg.pingPort))
    env t0 5 fuel 0

/-- The heartbeat loop shared by `RunManager` and `runMonitor`:

    ticker := time.NewTicker(cfg.HealthInterval)
    for { select {
      case <-ticker.C:  if err := agonesSDK.Health(); err != nil { log }
      case <-ctx.Done(): return
    } }

`t0` is the ticker creation time, `d` the health interval.  Returns the
emitted events and `some ()` when the loop returned via `ctx.Done()`,
`none` when the fuel ran out (still looping). -/
def healthLoop (env : Env) (t0 d : Nat) : Nat → Nat → List Event × Option Unit
  | 0, _ => ([], none)
  | fuel + 1, i =>
    if env.hbSel i then ([], some ())
    else
      let rest := healthLoop env t0 d fuel (i + 1)
      (.health (t0 + (i + 1) * d) (env.healthOk i) :: rest.1, rest.2)

/-- Result of a `RunManager` run (it returns no value in Go; this records
which `return` fired). -/
inductive MgrResult where
  | probeFailed (e : ProbeError)
  | readyFailed
  | terminated
  | outOfFuel
deriving DecidableEq

/-- Embedding of `RunManager` (`internal/agones/manager.go`): an uninterruptible
`time.Sleep(cfg.InitialDelay)` — a plain sleep that does not watch the
context — then `probeGameServer`; on probe error, log and return; then
`agonesSDK.Ready()`, and on error log and return; then the heartbeat loop
until the context is done. -/
def RunManager (cfg : Cfg) (env : Env) (pf hf : Nat) : List Event × MgrResult :=
  let pre : List Event := [.sleep cfg.initialDelay]
  let p := probeGameServer cfg env cfg.initialDelay pf
  match p.2.2 with
  | none => (pre ++ p.1, .outOfFuel)
  | some (.error e) => (pre ++ p.1, .probeFailed e)
  | some (.ok _) =>
    if env.readyOk then
      let h := healthLoop env p.2.1 cfg.healthInterval hf 0
      match h.2 with
      | none => (pre ++ p.1 ++ [.ready p.2.1 true] ++ h.1, .outOfFuel)
      | some _ => (pre ++ p.1 ++ [.ready p.2.1 true] ++ h.1, .terminated)
    else (pre ++ p.1 ++ [.ready p.2.1 false], .readyFailed)

/-- Result of a `runMonitor` run: which value it returned (`graceful` is
Go's `return nil` after the shutdown signal). -/
inductive MonResult where
  | sdkFailed
  | probeFailed (e : ProbeError)
  | readyFailed
  | graceful
  | outOfFuel
deriving DecidableEq

/-- Embedding of `runMonitor` (`main.go`): connect to the SDK (failure returns an
error), an uninterruptible `time.Sleep(cfg.InitialDelay)`, then the
agnostic `PingProbe.Probe`; a probe error is returned wrapped; then
`agonesSDK.Ready()`, whose error is returned wrapped; then the heartbeat
loop, returning nil when the context is done. -/
def runMonitor (cfg : Cfg) (sdkOk : Bool) (env : Env) (pf hf : Nat) :
    List Event × MonResult :=
  if sdkOk then
    let pre : List Event := [.sleep cfg.initialDelay]
    let p := pingProbeAgnostic cfg env cfg.initialDelay pf
    match p.2.2 with
    | none => (pre ++ p.1, .outOfFuel)
    | some (.error e) => (pre ++ p.1, .probeFailed e)
    | some (.ok _) =>
      if env.readyOk then
        let h := healthLoop env p.2.1 cfg.healthInterval hf 0
        match h.2 with
        | none => (pre ++ p.1 ++ [.ready p.2.1 true] ++ h.1, .outOfFuel)
        | some _ => (pre ++ p.1 ++ [.ready p.2.1 true] ++ h.1, .graceful)
      else (pre ++ p.1 ++ [.ready p.2.1 false], .readyFailed)
  else ([], .sdkFailed)

/-- The agnostic entry point `main` (`main.go`): run `runMonitor`; exit
status 1 when it returned an error, 0 when it returned nil.  `none` when
the run is still in progress (fuel ran out). -/
def mainAgnostic (cfg : Cfg) (sdkOk : Bool) (env : Env) (pf hf : Nat) :
    List Event × Option Nat :=
  let r := runMonitor cfg sdkOk env pf hf
  match r.2 with
  | .outOfFuel => (r.1, none)
  | .graceful => (r.1, some 0)
  | _ => (r.1, some 1)

/-- The pegnia entry point `main` (`src/unnamed/part_002`): exit 1 when the
SDK connection fails; otherwise spawn `RunManager` as a goroutine, block on
`<-ctx.Done()`, log and return — exit status 0 — regardless of how the
manager goroutine ended.  `none` when the modelled horizon ran out before
the manager finished. -/
def mainPegnia (cfg : Cfg) (sdkOk : Bool) (env : Env) (pf hf : Nat) :
    List Event × Option Nat :=
  if sdkOk then
    let r := RunManager cfg env pf hf
    match r.2 with
    | .outOfFuel => (r.1, none)
    | _ => (r.1, some 0)
  else ([], some 1)

/-! ## Trace predicates -/

/-- Is this event an invocation of the ready-signal capability? -/
def isReadyEv : Event → Bool
  | .ready _ _ => true
  | _ => false

/-- Is this event an invocation of the health-signal capability? -/
def isHealthEv : Event → Bool
  | .health _ _ => true
  | _ => false

/-- Is this event a probe attempt? -/
def isProbeEv : Event → Bool
  | .probeAttempt _ _ => true
  | _ => false

/-- Is this event a probe attempt with a success outcome? -/
def isSuccessProbeEv : Event → Bool
  | .probeAttempt _ true => true
  | _ => false

/-- Number of ready-signal invocations in a trace. -/
def countReady (tr : List Event) : Nat := tr.countP (fun e => isReadyEv e)

/-- Number of health-signal invocations in a trace. -/
def countHealth (tr : List Event) : Nat := tr.countP (fun e => isHealthEv e)

/-- Number of probe attempts in a trace. -/
def countProbe (tr : List Event) : Nat := tr.countP (fun e => isProbeEv e)

/-- Scan checking that every ready-signal invocation is preceded by at
least one successful probe attempt; `seen` records whether a successful
probe has already occurred. -/
def readyOnlyAfterSuccess (seen : Bool) : List Event → Bool
  | [] => true
  | .probeAttempt _ true :: tr => readyOnlyAfterSuccess true tr
  | .ready _ _ :: tr => seen && readyOnlyAfterSuccess seen tr
  | _ :: tr => readyOnlyAfterSuccess seen tr

/-- State update of `readyOnlyAfterSuccess` over a trace segment. -/
def seenSuccessAfter (seen : Bool) : List Event → Bool
  | [] => seen
  | .probeAttempt _ true :: tr => seenSuccessAfter true tr
  | _ :: tr => seenSuccessAfter seen tr

/-- Scan checking that every health-signal invocation is preceded by a
ready-signal invocation that returned without error; `seen` records
whether such a ready call has already occurred. -/
def healthOnlyAfterReadyOk (seen : Bool) : List Event → Bool
  | [] => true
  | .ready _ ok :: tr => healthOnlyAfterReadyOk (seen || ok) tr
  | .health _ _ :: tr => seen && healthOnlyAfterReadyOk seen tr
  | _ :: tr => healthOnlyAfterReadyOk seen tr

/-- State update of `healthOnlyAfterReadyOk` over a trace segment. -/
def readyOkAfter (seen : Bool) : List Event → Bool
  | [] => seen
  | .ready _ ok :: tr => readyOkAfter (seen || ok) tr
  | _ :: tr => readyOkAfter seen tr

/-! ## Concrete environments used by witnesses and counterexamples -/

/-- Attempt environment in which every socket operation succeeds. -/
def attOk : AttemptEnv := ⟨none, none, none⟩

/-- Attempt environment in which the dial fails with a refusal. -/
def attRefused : AttemptEnv := ⟨some "connection refused", none, none⟩

/-- The default configuration values of `config.LoadFromEnv`, with UDP. -/
def cfgUdp : Cfg := ⟨30, 15, "127.0.0.1", "25565", "udp"⟩

/-- The default configuration values of `config.LoadFromEnv` (TCP). -/
def cfgTcp : Cfg := ⟨30, 15, "127.0.0.1", "25565", "tcp"⟩

/-- A run in which the first probe dial fails, the second succeeds, every
SDK call succeeds, and the shutdown signal arrives during the second
heartbeat wait. -/
def envDemo : Env where
  probeCtxDone := fun _ => false
  probeSel := fun _ => false
  attempts := fun i => if i = 0 then attRefused else attOk
  readyOk := true
  hbCtxDone := fun i => decide (1 ≤ i)
  hbSel := fun i => decide (1 ≤ i)
  healthOk := fun _ => true

/-- A run in which the first probe succeeds but the `Ready()` call
returns an error. -/
def envReadyFail : Env where
  probeCtxDone := fun _ => false
  probeSel := fun _ => false
  attempts := fun _ => attOk
  readyOk := false
  hbCtxDone := fun _ => false
  hbSel := fun _ => false
  healthOk := fun _ => true

/-- A run whose context is cancelled from the very start: every wait takes
the `ctx.Done()` branch. -/
def envCancelledAtStart : Env where
  probeCtxDone := fun _ => true
  probeSel := fun _ => true
  attempts := fun _ => attOk
  readyOk := true
  hbCtxDone := fun _ => true
  hbSel := fun _ => true
  healthOk := fun _ => true

/-- A run whose context is done from the start, but in which the pending
tick wins the first `select` race in the probing loop (legal for Go's
`select`, which picks uniformly at random among ready cases), and the dial
succeeds. -/
def envTickWins : Env where
  probeCtxDone := fun _ => true
  probeSel := fun _ => false
  attempts := fun _ => attOk
  readyOk := true
  hbCtxDone := fun _ => true
  hbSel := fun _ => true
  healthOk := fun _ => true

/-- A heartbeat-phase run in which every health call fails and the
shutdown signal never arrives. -/
def envHealthFail : Env where
  probeCtxDone := fun _ => false
  probeSel := fun _ => false
  attempts := fun _ => attOk
  readyOk := true
  hbCtxDone := fun _ => false
  hbSel := fun _ => false
  healthOk := fun _ => false

/-- Is this socket action a write? -/
def isWriteAction : SockAction → Bool
  | .write _ => true
  | _ => false

/-! ## Structural lemmas -/

theorem seenSuccessAfter_true (l : List Event) : seenSuccessAfter true l = true := by
  induction l with
  | nil => rfl
  | cons e tr ih =>
    cases e with
    | probeAttempt t b => cases b <;> simp [seenSuccessAfter, ih]
    | sleep d => simp [seenSuccessAfter, ih]
    | ready t b => simp [seenSuccessAfter, ih]
    | health t b => simp [seenSuccessAfter, ih]

theorem readyOnlyAfterSuccess_append (s : Bool) (xs ys : List Event) :
    readyOnlyAfterSuccess s (xs ++ ys) =
      (readyOnlyAfterSuccess s xs && readyOnlyAfterSuccess (seenSuccessAfter s xs) ys) := by
  induction xs generalizing s with
  | nil => simp [readyOnlyAfterSuccess, seenSuccessAfter]
  | cons e tr ih =>
    cases e with
    | probeAttempt t b =>
      cases b <;> simp [readyOnlyAfterSuccess, seenSuccessAfter, ih, Bool.and_assoc]
    | sleep d => simp [readyOnlyAfterSuccess, seenSuccessAfter, ih]
    | ready t b => simp [readyOnlyAfterSuccess, seenSuccessAfter, ih, Bool.and_assoc]
    | health t b => simp [readyOnlyAfterSuccess, seenSuccessAfter, ih]

theorem healthOnlyAfterReadyOk_true (l : List Event) :
    healthOnlyAfterReadyOk true l = true := by
  induction l with
  | nil => rfl
  | cons e tr ih =>
    cases e with
    | ready t b => simp [healthOnlyAfterReadyOk, ih]
    | health t b => simp [healthOnlyAfterReadyOk, ih]
    | sleep d => simp [healthOnlyAfterReadyOk, ih]
    | probeAttempt t b => simp [healthOnlyAfterReadyOk, ih]

theorem healthOnlyAfterReadyOk_append (s : Bool) (xs ys : List Event) :
    healthOnlyAfterReadyOk s (xs ++ ys) =
      (healthOnlyAfterReadyOk s xs && healthOnlyAfterReadyOk (readyOkAfter s xs) ys) := by
  induction xs generalizing s with
  | nil => simp [healthOnlyAfterReadyOk, readyOkAfter]
  | cons e tr ih =>
    cases e with
    | ready t b => simp [healthOnlyAfterReadyOk, readyOkAfter, ih]
    | health t b => simp [healthOnlyAfterReadyOk, readyOkAfter, ih, Bool.and_assoc]
    | sleep d => simp [healthOnlyAfterReadyOk, readyOkAfter, ih]
    | probeAttempt t b => simp [healthOnlyAfterReadyOk, readyOkAfter, ih]

theorem readyOnlyAfterSuccess_of_no_ready (s : Bool) (l : List Event)
    (h : ∀ e ∈ l, isReadyEv e = false) : readyOnlyAfterSuccess s l = true := by
  induction l generalizing s with
  | nil => rfl
  | cons e tr ih =>
    cases e with
    | probeAttempt t b =>
      cases b <;>
        exact ih _ (fun x hx => h x (List.mem_cons_of_mem _ hx))
    | sleep d => exact ih _ (fun x hx => h x (List.mem_cons_of_mem _ hx))
    | ready t b =>
      have := h (.ready t b) (List.mem_cons_self _ _)
      simp [isReadyEv] at this
    | health t b => exact ih _ (fun x hx => h x (List.mem_cons_of_mem _ hx))

theorem healthOnlyAfterReadyOk_of_no_health (s : Bool) (l : List Event)
    (h : ∀ e ∈ l, isHealthEv e = false) : healthOnlyAfterReadyOk s l = true := by
  induction l generalizing s with
  | nil => rfl
  | cons e tr ih =>
    cases e with
    | ready t b => exact ih _ (fun x hx => h x (List.mem_cons_of_mem _ hx))
    | health t b =>
      have := h (.health t b) (List.mem_cons_self _ _)
      simp [isHealthEv] at this
    | sleep d => exact ih _ (fun x hx => h x (List.mem_cons_of_mem _ hx))
    | probeAttempt t b => exact ih _ (fun x hx => h x (List.mem_cons_of_mem _ hx))

theorem readyOkAfter_of_no_ready (s : Bool) (l : List Event)
    (h : ∀ e ∈ l, isReadyEv e = false) : readyOkAfter s l = s := by
  induction l with
  | nil => rfl
  | cons e tr ih =>
    cases e with
    | ready t b =>
      have := h (.ready t b) (List.mem_cons_self _ _)
      simp [isReadyEv] at this
    | sleep d => simpa [readyOkAfter] using ih (fun x hx => h x (List.mem_cons_of_mem _ hx))
    | probeAttempt t b => simpa [readyOkAfter] using ih (fun x hx => h x (List.mem_cons_of_mem _ hx))
    | health t b => simpa [readyOkAfter] using ih (fun x hx => h x (List.mem_cons_of_mem _ hx))

theorem seenSuccessAfter_of_no_success (s : Bool) (l : List Event)
    (h : ∀ e ∈ l, isSuccessProbeEv e = false) : seenSuccessAfter s l = s := by
  induction l with
  | nil => rfl
  | cons e tr ih =>
    cases e with
    | probeAttempt t b =>
      cases b with
      | true =>
        have := h (.probeAttempt t true) (List.mem_cons_self _ _)
        simp [isSuccessProbeEv] at this
      | false => simpa [seenSuccessAfter] using ih (fun x hx => h x (List.mem_cons_of_mem _ hx))
    | sleep d => simpa [seenSuccessAfter] using ih (fun x hx => h x (List.mem_cons_of_mem _ hx))
    | ready t b => simpa [seenSuccessAfter] using ih (fun x hx => h x (List.mem_cons_of_mem _ hx))
    | health t b => simpa [seenSuccessAfter] using ih (fun x hx => h x (List.mem_cons_of_mem _ hx))

theorem probeLoop_events (att : AttemptEnv → List SockAction × Option ProbeError)
    (env : Env) (t0 retry : Nat) :
    ∀ fuel i, ∀ e ∈ (probeLoop att env t0 retry fuel i).1,
      ∃ t b, e = .probeAttempt t b ∧ t0 + (i + 1) * retry ≤ t := by
  intro fuel
  induction fuel with
  | zero => intro i e he; simp [probeLoop] at he
  | succ n ih =>
    intro i e he
    by_cases hs : env.probeSel i
    · simp [probeLoop, hs] at he
    · simp only [probeLoop, hs, if_neg, Bool.false_eq_true, ite_false] at he
      rcases hm : (att (env.attempts i)).2 with _ | er
      · rw [hm] at he
        simp at he
        exact ⟨_, _, he, le_refl _⟩
      · rw [hm] at he
        simp at he
        rcases he with he | he
        · exact ⟨_, _, he, le_refl _⟩
        · rcases ih (i + 1) e he with ⟨t, b, hb, ht⟩
          refine ⟨t, b, hb, le_trans ?_ ht⟩
          have : (i + 1) * retry ≤ (i + 1 + 1) * retry := by
            exact Nat.mul_le_mul_right _ (by omega)
          omega

theorem probeLoop_error (att : AttemptEnv → List SockAction × Option ProbeError)
    (env : Env) (t0 retry : Nat) :
    ∀ fuel i e, (probeLoop att env t0 retry fuel i).2.2 = some (.error e) →
      e = .ctxCanceled := by
  intro fuel
  induction fuel with
  | zero => intro i e h; simp [probeLoop] at h
  | succ n ih =>
    intro i e h
    by_cases hs : env.probeSel i
    · simp [probeLoop, hs] at h
      exact h.symm
    · simp only [probeLoop, hs, Bool.false_eq_true, ite_false] at h
      rcases hm : (att (env.attempts i)).2 with _ | er
      · rw [hm] at h; simp at h
      · rw [hm] at h; simp at h
        exact ih (i + 1) e h

theorem probeLoop_cancel (att : AttemptEnv → List SockAction × Option ProbeError)
    (env : Env) (t0 retry fuel i : Nat) (hs : env.probeSel i = true) :
    probeLoop att env t0 retry (fuel + 1) i =
      ([], t0 + i * retry, some (.error .ctxCanceled)) := by
  simp [probeLoop, hs]

theorem probeLoop_att_ok (att : AttemptEnv → List SockAction × Option ProbeError)
    (env : Env) (t0 retry fuel i : Nat) (hs : env.probeSel i = false)
    (hm : (att (env.attempts i)).2 = none) :
    probeLoop att env t0 retry (fuel + 1) i =
      ([.probeAttempt (t0 + (i + 1) * retry) true], t0 + (i + 1) * retry,
        some (.ok ())) := by
  simp [probeLoop, hs, hm]

theorem probeLoop_att_fail (att : AttemptEnv → List SockAction × Option ProbeError)
    (env : Env) (t0 retry fuel i : Nat) (er : ProbeError) (hs : env.probeSel i = false)
    (hm : (att (env.attempts i)).2 = some er) :
    probeLoop att env t0 retry (fuel + 1) i =
      (.probeAttempt (t0 + (i + 1) * retry) false ::
          (probeLoop att env t0 retry fuel (i + 1)).1,
        (probeLoop att env t0 retry fuel (i + 1)).2) := by
  simp [probeLoop, hs, hm]

theorem probeLoop_ok_last (att : AttemptEnv → List SockAction × Option ProbeError)
    (env : Env) (t0 retry : Nat) :
    ∀ fuel i, (probeLoop att env t0 retry fuel i).2.2 = some (.ok ()) →
      (probeLoop att env t0 retry fuel i).1.getLast? =
        some (.probeAttempt (probeLoop att env t0 retry fuel i).2.1 true) ∧
      t0 + (i + 1) * retry ≤ (probeLoop att env t0 retry fuel i).2.1 := by
  intro fuel
  induction fuel with
  | zero => intro i h; simp [probeLoop] at h
  | succ n ih =>
    intro i h
    by_cases hs : env.probeSel i
    · rw [probeLoop_cancel att env t0 retry n i hs] at h
      simp at h
    · rw [Bool.not_eq_true] at hs
      rcases hm : (att (env.attempts i)).2 with _ | er
      · rw [probeLoop_att_ok att env t0 retry n i hs hm]
        simp
      · rw [probeLoop_att_fail att env t0 retry n i er hs hm] at h ⊢
        simp only at h
        rcases ih (i + 1) h with ⟨h1, h2⟩
        refine ⟨?_, ?_⟩
        · rcases hnil : (probeLoop att env t0 retry n (i + 1)).1 with _ | ⟨x, xs⟩
          · rw [hnil] at h1; simp at h1
          · simp only [hnil] at h1 ⊢
            rw [List.getLast?_cons_cons]
            exact h1
        · have : (i + 1) * retry ≤ (i + 1 + 1) * retry :=
            Nat.mul_le_mul_right _ (by omega)
          simp only at h2 ⊢
          omega

theorem healthLoop_cancel (env : Env) (t0 d fuel i : Nat) (hs : env.hbSel i = true) :
    healthLoop env t0 d (fuel + 1) i = ([], some ()) := by
  simp [healthLoop, hs]

theorem healthLoop_tick (env : Env) (t0 d fuel i : Nat) (hs : env.hbSel i = false) :
    healthLoop env t0 d (fuel + 1) i =
      (.health (t0 + (i + 1) * d) (env.healthOk i) ::
          (healthLoop env t0 d fuel (i + 1)).1,
        (healthLoop env t0 d fuel (i + 1)).2) := by
  simp [healthLoop, hs]

theorem healthLoop_events (env : Env) (t0 d : Nat) :
    ∀ fuel i, ∀ e ∈ (healthLoop env t0 d fuel i).1,
      ∃ t b, e = .health t b ∧ t0 + (i + 1) * d ≤ t := by
  intro fuel
  induction fuel with
  | zero => intro i e he; simp [healthLoop] at he
  | succ n ih =>
    intro i e he
    by_cases hs : env.hbSel i
    · rw [healthLoop_cancel env t0 d n i hs] at he
      simp at he
    · rw [Bool.not_eq_true] at hs
      rw [healthLoop_tick env t0 d n i hs] at he
      simp only [List.mem_cons] at he
      rcases he with he | he
      · exact ⟨_, _, he, le_refl _⟩
      · rcases ih (i + 1) e he with ⟨t, b, hb, ht⟩
        refine ⟨t, b, hb, le_trans ?_ ht⟩
        have : (i + 1) * d ≤ (i + 1 + 1) * d := Nat.mul_le_mul_right _ (by omega)
        omega

theorem healthLoop_no_cancel (env : Env) (t0 d : Nat)
    (h : ∀ k, env.hbSel k = false) :
    ∀ fuel i, (healthLoop env t0 d fuel i).2 = none ∧
      (healthLoop env t0 d fuel i).1.length = fuel := by
  intro fuel
  induction fuel with
  | zero => intro i; simp [healthLoop]
  | succ n ih =>
    intro i
    rw [healthLoop_tick env t0 d n i (h i)]
    rcases ih (i + 1) with ⟨h1, h2⟩
    simp [h1, h2]

theorem healthLoop_exit (env : Env) (t0 d : Nat) :
    ∀ fuel i, (healthLoop env t0 d fuel i).2 = some () →
      ∃ k, env.hbSel k = true := by
  intro fuel
  induction fuel with
  | zero => intro i h; simp [healthLoop] at h
  | succ n ih =>
    intro i h
    by_cases hs : env.hbSel i
    · exact ⟨i, hs⟩
    · rw [Bool.not_eq_true] at hs
      rw [healthLoop_tick env t0 d n i hs] at h
      exact ih (i + 1) h

@[simp] theorem isReadyEv_sleep (d : Nat) : isReadyEv (.sleep d) = false := rfl

@[simp] theorem isReadyEv_probe (t : Nat) (b : Bool) :
    isReadyEv (.probeAttempt t b) = false := rfl

@[simp] theorem isReadyEv_ready (t : Nat) (b : Bool) :
    isReadyEv (.ready t b) = true := rfl

@[simp] theorem isReadyEv_health (t : Nat) (b : Bool) :
    isReadyEv (.health t b) = false := rfl

@[simp] theorem isHealthEv_sleep (d : Nat) : isHealthEv (.sleep d) = false := rfl

@[simp] theorem isHealthEv_probe (t : Nat) (b : Bool) :
    isHealthEv (.probeAttempt t b) = false := rfl

@[simp] theorem isHealthEv_ready (t : Nat) (b : Bool) :
    isHealthEv (.ready t b) = false := rfl

@[simp] theorem isHealthEv_health (t : Nat) (b : Bool) :
    isHealthEv (.health t b) = true := rfl

@[simp] theorem isProbeEv_sleep (d : Nat) : isProbeEv (.sleep d) = false := rfl

@[simp] theorem isProbeEv_probe (t : Nat) (b : Bool) :
    isProbeEv (.probeAttempt t b) = true := rfl

@[simp] theorem isProbeEv_ready (t : Nat) (b : Bool) :
    isProbeEv (.ready t b) = false := rfl

@[simp] theorem isProbeEv_health (t : Nat) (b : Bool) :
    isProbeEv (.health t b) = false := rfl

theorem mem_of_getLast?_eq_some {α : Type} {l : List α} {a : α}
    (h : l.getLast? = some a) : a ∈ l := by
  rcases List.mem_getLast?_eq_getLast (Option.mem_def.mpr h) with ⟨hne, hEq⟩
  exact hEq ▸ List.getLast_mem hne

theorem countReady_append (xs ys : List Event) :
    countReady (xs ++ ys) = countReady xs + countReady ys :=
  List.countP_append _ _ _

theorem countHealth_append (xs ys : List Event) :
    countHealth (xs ++ ys) = countHealth xs + countHealth ys :=
  List.countP_append _ _ _

theorem countProbe_append (xs ys : List Event) :
    countProbe (xs ++ ys) = countProbe xs + countProbe ys :=
  List.countP_append _ _ _

theorem probeLoop_no_ready (att : AttemptEnv → List SockAction × Option ProbeError)
    (env : Env) (t0 retry fuel i : Nat) :
    ∀ e ∈ (probeLoop att env t0 retry fuel i).1, isReadyEv e = false := by
  intro e he
  rcases probeLoop_events att env t0 retry fuel i e he with ⟨t, b, rfl, -⟩
  rfl

theorem probeLoop_no_health (att : AttemptEnv → List SockAction × Option ProbeError)
    (env : Env) (t0 retry fuel i : Nat) :
    ∀ e ∈ (probeLoop att env t0 retry fuel i).1, isHealthEv e = false := by
  intro e he
  rcases probeLoop_events att env t0 retry fuel i e he with ⟨t, b, rfl, -⟩
  rfl

theorem healthLoop_no_ready (env : Env) (t0 d fuel i : Nat) :
    ∀ e ∈ (healthLoop env t0 d fuel i).1, isReadyEv e = false := by
  intro e he
  rcases healthLoop_events env t0 d fuel i e he with ⟨t, b, rfl, -⟩
  rfl

theorem countReady_probeLoop (att : AttemptEnv → List SockAction × Option ProbeError)
    (env : Env) (t0 retry fuel i : Nat) :
    countReady (probeLoop att env t0 retry fuel i).1 = 0 := by
  refine List.countP_eq_zero.mpr ?_
  intro e he
  simp [probeLoop_no_ready att env t0 retry fuel i e he]

theorem countHealth_probeLoop (att : AttemptEnv → List SockAction × Option ProbeError)
    (env : Env) (t0 retry fuel i : Nat) :
    countHealth (probeLoop att env t0 retry fuel i).1 = 0 := by
  refine List.countP_eq_zero.mpr ?_
  intro e he
  simp [probeLoop_no_health att env t0 retry fuel i e he]

theorem countReady_healthLoop (env : Env) (t0 d fuel i : Nat) :
    countReady (healthLoop env t0 d fuel i).1 = 0 := by
  refine List.countP_eq_zero.mpr ?_
  intro e he
  simp [healthLoop_no_ready env t0 d fuel i e he]

theorem seenSuccessAfter_probeLoop_ok
    (att : AttemptEnv → List SockAction × Option ProbeError)
    (env : Env) (t0 retry fuel i : Nat) (s : Bool)
    (h : (probeLoop att env t0 retry fuel i).2.2 = some (.ok ())) :
    seenSuccessAfter s (probeLoop att env t0 retry fuel i).1 = true := by
  have hlast := (probeLoop_ok_last att env t0 retry fuel i h).1
  have hmem := mem_of_getLast?_eq_some hlast
  -- a successful probe attempt is in the trace; the scan state becomes true
  clear hlast h
  generalize (probeLoop att env t0 retry fuel i).1 = l at hmem ⊢
  induction l generalizing s with
  | nil => simp at hmem
  | cons e tr ih =>
    rcases List.mem_cons.mp hmem with rfl | hmem'
    · simpa [seenSuccessAfter] using seenSuccessAfter_true tr
    · cases e with
      | probeAttempt t b => cases b <;> simp [seenSuccessAfter, ih _ hmem']
      | sleep d' => simp [seenSuccessAfter, ih _ hmem']
      | ready t b => simp [seenSuccessAfter, ih _ hmem']
      | health t b => simp [seenSuccessAfter, ih _ hmem']

theorem seenSuccessAfter_append (s : Bool) (xs ys : List Event) :
    seenSuccessAfter s (xs ++ ys) = seenSuccessAfter (seenSuccessAfter s xs) ys := by
  induction xs generalizing s with
  | nil => simp [seenSuccessAfter]
  | cons e tr ih =>
    cases e with
    | probeAttempt t b => cases b <;> simp [seenSuccessAfter, ih]
    | sleep d => simp [seenSuccessAfter, ih]
    | ready t b => simp [seenSuccessAfter, ih]
    | health t b => simp [seenSuccessAfter, ih]

theorem readyOkAfter_append (s : Bool) (xs ys : List Event) :
    readyOkAfter s (xs ++ ys) = readyOkAfter (readyOkAfter s xs) ys := by
  induction xs generalizing s with
  | nil => simp [readyOkAfter]
  | cons e tr ih =>
    cases e with
    | ready t b => simp [readyOkAfter, ih]
    | sleep d => simp [readyOkAfter, ih]
    | probeAttempt t b => simp [readyOkAfter, ih]
    | health t b => simp [readyOkAfter, ih]

theorem c1_no_ready (xs : List Event) (h : ∀ e ∈ xs, isReadyEv e = false) :
    countReady xs ≤ 1 ∧ readyOnlyAfterSuccess false xs = true := by
  constructor
  · have : countReady xs = 0 :=
      List.countP_eq_zero.mpr (fun e he => by simp [h e he])
    omega
  · exact readyOnlyAfterSuccess_of_no_ready _ _ h

theorem c1_with_ready (pre ptr htr : List Event) (tf : Nat) (ok : Bool)
    (hpre : ∀ e ∈ pre, isReadyEv e = false)
    (hptr : ∀ e ∈ ptr, isReadyEv e = false)
    (hhtr : ∀ e ∈ htr, isReadyEv e = false)
    (hsucc : ∀ s, seenSuccessAfter s ptr = true) :
    countReady (pre ++ ptr ++ [.ready tf ok] ++ htr) ≤ 1 ∧
      readyOnlyAfterSuccess false (pre ++ ptr ++ [.ready tf ok] ++ htr) = true := by
  have h0 : countReady pre = 0 :=
    List.countP_eq_zero.mpr (fun e he => by simp [hpre e he])
  have h1 : countReady ptr = 0 :=
    List.countP_eq_zero.mpr (fun e he => by simp [hptr e he])
  have h3 : countReady htr = 0 :=
    List.countP_eq_zero.mpr (fun e he => by simp [hhtr e he])
  have h2 : countReady [Event.ready tf ok] = 1 := rfl
  constructor
  · rw [countReady_append, countReady_append, countReady_append, h0, h1, h2, h3]
  · simp only [readyOnlyAfterSuccess_append, seenSuccessAfter_append]
    rw [readyOnlyAfterSuccess_of_no_ready _ _ hpre,
      readyOnlyAfterSuccess_of_no_ready _ _ hptr, hsucc]
    simp [readyOnlyAfterSuccess, seenSuccessAfter,
      readyOnlyAfterSuccess_of_no_ready _ _ hhtr]

theorem runManager_c1 (cfg : Cfg) (env : Env) (pf hf : Nat) :
    countReady (RunManager cfg env pf hf).1 ≤ 1 ∧
      readyOnlyAfterSuccess false (RunManager cfg env pf hf).1 = true := by
  have hpre : ∀ e ∈ [Event.sleep cfg.initialDelay], isReadyEv e = false := by
    intro e he
    simp only [List.mem_singleton] at he
    subst he
    rfl
  simp only [RunManager, probeGameServer]
  set att := dialAttempt (lowerString cfg.pingProtocol)
    (joinHostPort cfg.pingHost cfg.pingPort) with hatt
  have hptr := probeLoop_no_ready att env cfg.initialDelay 2 pf 0
  rcases hp : (probeLoop att env cfg.initialDelay 2 pf 0).2.2 with _ | x
  · simp only [hp]
    exact c1_no_ready _ (by
      intro e he
      rcases List.mem_append.mp he with h | h
      · exact hpre e h
      · exact hptr e h)
  · cases x with
    | error er =>
      simp only [hp]
      exact c1_no_ready _ (by
        intro e he
        rcases List.mem_append.mp he with h | h
        · exact hpre e h
        · exact hptr e h)
    | ok u =>
      cases u
      have hsucc := fun s => seenSuccessAfter_probeLoop_ok att env cfg.initialDelay 2 pf 0 s hp
      simp only [hp]
      by_cases hr : env.readyOk
      · simp only [hr, if_true]
        rcases hh : (healthLoop env (probeLoop att env cfg.initialDelay 2 pf 0).2.1
            cfg.healthInterval hf 0).2 with _ | v
        · simp only [hh]
          exact c1_with_ready _ _ _ _ _ hpre hptr
            (healthLoop_no_ready env _ cfg.healthInterval hf 0) hsucc
        · simp only [hh]
          exact c1_with_ready _ _ _ _ _ hpre hptr
            (healthLoop_no_ready env _ cfg.healthInterval hf 0) hsucc
      · simp only [hr, if_false]
        have := c1_with_ready [Event.sleep cfg.initialDelay]
          (probeLoop att env cfg.initialDelay 2 pf 0).1 []
          (probeLoop att env cfg.initialDelay 2 pf 0).2.1 false
          hpre hptr (by intro e he; simp at he) hsucc
        simpa using this

theorem runMonitor_c1 (cfg : Cfg) (sdkOk : Bool) (env : Env) (pf hf : Nat) :
    countReady (runMonitor cfg sdkOk env pf hf).1 ≤ 1 ∧
      readyOnlyAfterSuccess false (runMonitor cfg sdkOk env pf hf).1 = true := by
  have hpre : ∀ e ∈ [Event.sleep cfg.initialDelay], isReadyEv e = false := by
    intro e he
    simp only [List.mem_singleton] at he
    subst he
    rfl
  by_cases hsdk : sdkOk
  · simp only [runMonitor, pingProbeAgnostic, hsdk, if_true]
    set att := pingAttemptSimple (lowerString cfg.pingProtocol)
      (joinHostPort cfg.pingHost cfg.pingPort) with hatt
    have hptr := probeLoop_no_ready att env cfg.initialDelay 5 pf 0
    rcases hp : (probeLoop att env cfg.initialDelay 5 pf 0).2.2 with _ | x
    · simp only [hp]
      exact c1_no_ready _ (by
        intro e he
        rcases List.mem_append.mp he with h | h
        · exact hpre e h
        · exact hptr e h)
    · cases x with
      | error er =>
        simp only [hp]
        exact c1_no_ready _ (by
          intro e he
          rcases List.mem_append.mp he with h | h
          · exact hpre e h
          · exact hptr e h)
      | ok u =>
        cases u
        have hsucc := fun s =>
          seenSuccessAfter_probeLoop_ok att env cfg.initialDelay 5 pf 0 s hp
        simp only [hp]
        by_cases hr : env.readyOk
        · simp only [hr, if_true]
          rcases hh : (healthLoop env (probeLoop att env cfg.initialDelay 5 pf 0).2.1
              cfg.healthInterval hf 0).2 with _ | v
          · simp only [hh]
            exact c1_with_ready _ _ _ _ _ hpre hptr
              (healthLoop_no_ready env _ cfg.healthInterval hf 0) hsucc
          · simp only [hh]
            exact c1_with_ready _ _ _ _ _ hpre hptr
              (healthLoop_no_ready env _ cfg.healthInterval hf 0) hsucc
        · simp only [hr, if_false]
          have := c1_with_ready [Event.sleep cfg.initialDelay]
            (probeLoop att env cfg.initialDelay 5 pf 0).1 []
            (probeLoop att env cfg.initialDelay 5 pf 0).2.1 false
            hpre hptr (by intro e he; simp at he) hsucc
          simpa using this
  · simp [runMonitor, hsdk, countReady, readyOnlyAfterSuccess]

theorem c2_no_health (xs : List Event) (h : ∀ e ∈ xs, isHealthEv e = false) :
    healthOnlyAfterReadyOk false xs = true ∧ countHealth xs = 0 := by
  refine ⟨healthOnlyAfterReadyOk_of_no_health _ _ h, ?_⟩
  exact List.countP_eq_zero.mpr (fun e he => by simp [h e he])

theorem c2_with_health (pre ptr htr : List Event) (tf : Nat)
    (hpre : ∀ e ∈ pre, isHealthEv e = false)
    (hptr : ∀ e ∈ ptr, isHealthEv e = false) :
    healthOnlyAfterReadyOk false (pre ++ ptr ++ [.ready tf true] ++ htr) = true := by
  simp only [healthOnlyAfterReadyOk_append, readyOkAfter_append]
  rw [healthOnlyAfterReadyOk_of_no_health _ _ hpre,
    healthOnlyAfterReadyOk_of_no_health _ _ hptr]
  simp [healthOnlyAfterReadyOk, readyOkAfter, healthOnlyAfterReadyOk_true]

theorem runManager_c2 (cfg : Cfg) (env : Env) (pf hf : Nat) :
    healthOnlyAfterReadyOk false (RunManager cfg env pf hf).1 = true ∧
      (env.readyOk = false → countHealth (RunManager cfg env pf hf).1 = 0) := by
  have hpre : ∀ e ∈ [Event.sleep cfg.initialDelay], isHealthEv e = false := by
    intro e he
    simp only [List.mem_singleton] at he
    subst he
    rfl
  simp only [RunManager, probeGameServer]
  set att := dialAttempt (lowerString cfg.pingProtocol)
    (joinHostPort cfg.pingHost cfg.pingPort) with hatt
  have hptr := probeLoop_no_health att env cfg.initialDelay 2 pf 0
  have hjoined : ∀ e ∈ [Event.sleep cfg.initialDelay] ++
      (probeLoop att env cfg.initialDelay 2 pf 0).1, isHealthEv e = false := by
    intro e he
    rcases List.mem_append.mp he with h | h
    · exact hpre e h
    · exact hptr e h
  rcases hp : (probeLoop att env cfg.initialDelay 2 pf 0).2.2 with _ | x
  · simp only [hp]
    exact ⟨(c2_no_health _ hjoined).1, fun _ => (c2_no_health _ hjoined).2⟩
  · cases x with
    | error er =>
      simp only [hp]
      exact ⟨(c2_no_health _ hjoined).1, fun _ => (c2_no_health _ hjoined).2⟩
    | ok u =>
      cases u
      simp only [hp]
      by_cases hr : env.readyOk
      · simp only [hr, if_true]
        rcases hh : (healthLoop env (probeLoop att env cfg.initialDelay 2 pf 0).2.1
            cfg.healthInterval hf 0).2 with _ | v
        · simp only [hh]
          refine ⟨c2_with_health _ _ _ _ hpre hptr, fun hc => ?_⟩
          simp at hc
        · simp only [hh]
          refine ⟨c2_with_health _ _ _ _ hpre hptr, fun hc => ?_⟩
          simp at hc
      · simp only [hr, if_false]
        have hall : ∀ e ∈ [Event.sleep cfg.initialDelay] ++
            (probeLoop att env cfg.initialDelay 2 pf 0).1 ++
            [Event.ready (probeLoop att env cfg.initialDelay 2 pf 0).2.1 false],
            isHealthEv e = false := by
          intro e he
          rcases List.mem_append.mp he with h | h
          · exact hjoined e h
          · simp only [List.mem_singleton] at h
            subst h
            rfl
        exact ⟨(c2_no_health _ hall).1, fun _ => (c2_no_health _ hall).2⟩

theorem runMonitor_c2 (cfg : Cfg) (sdkOk : Bool) (env : Env) (pf hf : Nat) :
    healthOnlyAfterReadyOk false (runMonitor cfg sdkOk env pf hf).1 = true ∧
      (env.readyOk = false → countHealth (runMonitor cfg sdkOk env pf hf).1 = 0) := by
  have hpre : ∀ e ∈ [Event.sleep cfg.initialDelay], isHealthEv e = false := by
    intro e he
    simp only [List.mem_singleton] at he
    subst he
    rfl
  by_cases hsdk : sdkOk
  · simp only [runMonitor, pingProbeAgnostic, hsdk, if_true]
    set att := pingAttemptSimple (lowerString cfg.pingProtocol)
      (joinHostPort cfg.pingHost cfg.pingPort) with hatt
    have hptr := probeLoop_no_health att env cfg.initialDelay 5 pf 0
    have hjoined : ∀ e ∈ [Event.sleep cfg.initialDelay] ++
        (probeLoop att env cfg.initialDelay 5 pf 0).1, isHealthEv e = false := by
      intro e he
      rcases List.mem_append.mp he with h | h
      · exact hpre e h
      · exact hptr e h
    rcases hp : (probeLoop att env cfg.initialDelay 5 pf 0).2.2 with _ | x
    · simp only [hp]
      exact ⟨(c2_no_health _ hjoined).1, fun _ => (c2_no_health _ hjoined).2⟩
    · cases x with
      | error er =>
        simp only [hp]
        exact ⟨(c2_no_health _ hjoined).1, fun _ => (c2_no_health _ hjoined).2⟩
      | ok u =>
        cases u
        simp only [hp]
        by_cases hr : env.readyOk
        · simp only [hr, if_true]
          rcases hh : (healthLoop env (probeLoop att env cfg.initialDelay 5 pf 0).2.1
              cfg.healthInterval hf 0).2 with _ | v
          · simp only [hh]
            refine ⟨c2_with_health _ _ _ _ hpre hptr, fun hc => ?_⟩
            simp at hc
          · simp only [hh]
            refine ⟨c2_with_health _ _ _ _ hpre hptr, fun hc => ?_⟩
            simp at hc
        · simp only [hr, if_false]
          have hall : ∀ e ∈ [Event.sleep cfg.initialDelay] ++
              (probeLoop att env cfg.initialDelay 5 pf 0).1 ++
              [Event.ready (probeLoop att env cfg.initialDelay 5 pf 0).2.1 false],
              isHealthEv e = false := by
            intro e he
            rcases List.mem_append.mp he with h | h
            · exact hjoined e h
            · simp only [List.mem_singleton] at h
              subst h
              rfl
          exact ⟨(c2_no_health _ hall).1, fun _ => (c2_no_health _ hall).2⟩
  · simp [runMonitor, hsdk, healthOnlyAfterReadyOk, countHealth]

/-- Claim C1: for every run of `RunManager` and of `runMonitor`, the
ready-signal capability is invoked at most once, and a ready call occurs
only after at least one probe attempt returned a success outcome,
regardless of how many failed attempts preceded it. -/
theorem claimC1_ready_at_most_once_only_after_success
    (cfg : Cfg) (env : Env) (pf hf : Nat) (sdkOk : Bool) :
    (countReady (RunManager cfg env pf hf).1 ≤ 1 ∧
      readyOnlyAfterSuccess false (RunManager cfg env pf hf).1 = true) ∧
    (countReady (runMonitor cfg sdkOk env pf hf).1 ≤ 1 ∧
      readyOnlyAfterSuccess false (runMonitor cfg sdkOk env pf hf).1 = true) :=
  ⟨runManager_c1 cfg env pf hf, runMonitor_c1 cfg sdkOk env pf hf⟩

/-- Claim C2: for every run of `RunManager` and of `runMonitor`, no
health-signal call ever occurs before a ready-signal call that returned
without error; in particular, if `Ready()` returns an error, zero health
calls are made in that run. -/
theorem claimC2_no_health_before_ready_ok
    (cfg : Cfg) (env : Env) (pf hf : Nat) (sdkOk : Bool) :
    (healthOnlyAfterReadyOk false (RunManager cfg env pf hf).1 = true ∧
      healthOnlyAfterReadyOk false (runMonitor cfg sdkOk env pf hf).1 = true) ∧
    (env.readyOk = false →
      countHealth (RunManager cfg env pf hf).1 = 0 ∧
      countHealth (runMonitor cfg sdkOk env pf hf).1 = 0) :=
  ⟨⟨(runManager_c2 cfg env pf hf).1, (runMonitor_c2 cfg sdkOk env pf hf).1⟩,
    fun h => ⟨(runManager_c2 cfg env pf hf).2 h, (runMonitor_c2 cfg sdkOk env pf hf).2 h⟩⟩

/-- Witness for claim C2 at a concrete run whose ready signal fails. -/
theorem claimC2_witness :
    countHealth (RunManager cfgUdp envReadyFail 3 3).1 = 0 ∧
      countHealth (runMonitor cfgUdp true envReadyFail 3 3).1 = 0 :=
  (claimC2_no_health_before_ready_ok cfgUdp envReadyFail 3 3 true).2 rfl

theorem runManager_terminated_readyOk (cfg : Cfg) (env : Env) (pf hf : Nat) :
    (RunManager cfg env pf hf).2 = .terminated → env.readyOk = true := by
  simp only [RunManager, probeGameServer]
  set att := dialAttempt (lowerString cfg.pingProtocol)
    (joinHostPort cfg.pingHost cfg.pingPort) with hatt
  rcases hp : (probeLoop att env cfg.initialDelay 2 pf 0).2.2 with _ | x
  · simp [hp]
  · cases x with
    | error er => simp [hp]
    | ok u =>
      cases u
      by_cases hr : env.readyOk
      · simp [hp, hr]
      · simp only [Bool.not_eq_true] at hr
        simp [hp, hr]

theorem runMonitor_graceful_readyOk (cfg : Cfg) (sdkOk : Bool) (env : Env)
    (pf hf : Nat) :
    (runMonitor cfg sdkOk env pf hf).2 = .graceful → env.readyOk = true := by
  by_cases hsdk : sdkOk
  · simp only [runMonitor, pingProbeAgnostic, hsdk, if_true]
    set att := pingAttemptSimple (lowerString cfg.pingProtocol)
      (joinHostPort cfg.pingHost cfg.pingPort) with hatt
    rcases hp : (probeLoop att env cfg.initialDelay 5 pf 0).2.2 with _ | x
    · simp [hp]
    · cases x with
      | error er => simp [hp]
      | ok u =>
        cases u
        by_cases hr : env.readyOk
        · simp [hp, hr]
        · simp only [Bool.not_eq_true] at hr
          simp [hp, hr]
  · simp [runMonitor, hsdk]

theorem mainAgnostic_exit_cases (cfg : Cfg) (sdkOk : Bool) (env : Env)
    (pf hf c : Nat) :
    (mainAgnostic cfg sdkOk env pf hf).2 = some c →
      (c = 0 ∧ (runMonitor cfg sdkOk env pf hf).2 = .graceful) ∨ c = 1 := by
  simp only [mainAgnostic]
  rcases hm : (runMonitor cfg sdkOk env pf hf).2 <;> simp [hm] <;> omega

theorem mainPegnia_exit_cases (cfg : Cfg) (env : Env) (pf hf : Nat) :
    (mainPegnia cfg true env pf hf).2 = some 0 ∨
      (mainPegnia cfg true env pf hf).2 = none := by
  simp only [mainPegnia, if_true]
  rcases hm : (RunManager cfg env pf hf).2 <;> simp [hm]

/-- Claim C3 counterexample: a pegnia-variant run in which the ready signal
fails: `RunManager` stops with `readyFailed` and sends no heartbeat, but
the process (`main`, `src/unnamed/part_002`) exits with status 0 — not
the non-zero status the claim asserts — because `RunManager` runs as a
goroutine and `main` returns normally after the shutdown signal. -/
theorem claimC3_counterexample :
    (RunManager cfgUdp envReadyFail 3 3).2 = MgrResult.readyFailed ∧
    countHealth (RunManager cfgUdp envReadyFail 3 3).1 = 0 ∧
    (mainPegnia cfgUdp true envReadyFail 3 3).2 = some 0 := by decide

/-- Claim C3 as amended: when the ready signal fails, both managers stop
without retrying Ready (at most one ready call) and without entering the
heartbeat phase (zero health calls); the agnostic entry point exits with a
non-zero status, while the pegnia entry point exits with status 0 after
cancellation (or is still running within the modelled horizon). -/
theorem claimC3_amended (cfg : Cfg) (env : Env) (pf hf : Nat)
    (hr : env.readyOk = false) :
    countReady (RunManager cfg env pf hf).1 ≤ 1 ∧
    countHealth (RunManager cfg env pf hf).1 = 0 ∧
    (RunManager cfg env pf hf).2 ≠ MgrResult.terminated ∧
    ((mainPegnia cfg true env pf hf).2 = some 0 ∨
      (mainPegnia cfg true env pf hf).2 = none) ∧
    countReady (runMonitor cfg true env pf hf).1 ≤ 1 ∧
    countHealth (runMonitor cfg true env pf hf).1 = 0 ∧
    (∀ c, (mainAgnostic cfg true env pf hf).2 = some c → c = 1) := by
  refine ⟨(runManager_c1 cfg env pf hf).1, (runManager_c2 cfg env pf hf).2 hr,
    ?_, mainPegnia_exit_cases cfg env pf hf,
    (runMonitor_c1 cfg true env pf hf).1, (runMonitor_c2 cfg true env pf hf).2 hr,
    ?_⟩
  · intro hterm
    have := runManager_terminated_readyOk cfg env pf hf hterm
    rw [hr] at this
    cases this
  · intro c hc
    rcases mainAgnostic_exit_cases cfg true env pf hf c hc with ⟨-, hg⟩ | h1
    · have := runMonitor_graceful_readyOk cfg true env pf hf hg
      rw [hr] at this
      cases this
    · exact h1

/-- Witness for claim C3 as amended at a concrete failing-ready run. -/
theorem claimC3_witness :
    countHealth (RunManager cfgUdp envReadyFail 3 3).1 = 0 ∧
      (RunManager cfgUdp envReadyFail 3 3).2 ≠ MgrResult.terminated :=
  ⟨(claimC3_amended cfgUdp envReadyFail 3 3 rfl).2.1,
    (claimC3_amended cfgUdp envReadyFail 3 3 rfl).2.2.1⟩

/-- Claim C4 counterexample: a realizable run (`Env.valid`) in which the
context is done before the first probing wait, yet a probe attempt — a
network call — is still issued, because the pending tick wins the random
`select` choice.  So "once the context is done, no further network call is
issued" and "the cancellation branch is always taken" are both false. -/
theorem claimC4_counterexample :
    Env.valid envTickWins ∧
    envTickWins.probeCtxDone 0 = true ∧
    1 ≤ countProbe (RunManager cfgTcp envTickWins 3 3).1 := by
  refine ⟨⟨fun i h => rfl, fun i h => rfl, fun i j _ _ => rfl, fun i j _ _ => rfl⟩,
    rfl, ?_⟩
  decide

/-- Claim C4 as amended: once the `ctx.Done()` branch of a wait has actually
been taken, no further network call is issued: the probing loop returns
`ctx.Err()` immediately with no further probe events, and the heartbeat
loop returns immediately with no further health events. -/
theorem claimC4_amended (att : AttemptEnv → List SockAction × Option ProbeError)
    (env : Env) (t0 retry d fuel i : Nat)
    (hp : env.probeSel i = true) (hh : env.hbSel i = true) :
    probeLoop att env t0 retry (fuel + 1) i =
      ([], t0 + i * retry, some (.error .ctxCanceled)) ∧
    healthLoop env t0 d (fuel + 1) i = ([], some ()) :=
  ⟨probeLoop_cancel att env t0 retry fuel i hp,
    healthLoop_cancel env t0 d fuel i hh⟩

/-- Witness for claim C4 as amended. -/
theorem claimC4_witness :
    probeLoop (dialAttempt "tcp" "127.0.0.1:25565") envCancelledAtStart 30 2 4 0 =
      ([], 30, some (.error .ctxCanceled)) ∧
    healthLoop envCancelledAtStart 30 15 4 0 = ([], some ()) :=
  claimC4_amended (dialAttempt "tcp" "127.0.0.1:25565") envCancelledAtStart
    30 2 15 3 0 rfl rfl

/-- Claim C5 counterexample: with the context cancelled before start (a valid
environment where every wait would take the `ctx.Done()` branch),
`RunManager` still waits out the entire `initialDelay` — its trace is
exactly the full 30-second sleep — because `time.Sleep` does not watch the
context; termination then happens via the probing loop's cancellation
check, not during the delay. -/
theorem claimC5_counterexample :
    Env.valid envCancelledAtStart ∧
    (RunManager cfgTcp envCancelledAtStart 3 3).1 = [Event.sleep 30] ∧
    (RunManager cfgTcp envCancelledAtStart 3 3).2 =
      MgrResult.probeFailed ProbeError.ctxCanceled := by
  refine ⟨⟨fun i h => rfl, fun i h => rfl, fun i j _ _ => rfl, fun i j _ _ => rfl⟩,
    ?_, ?_⟩ <;> decide

/-- Claim C5 as amended: cancellation is observable during the probe-retry
and heartbeat waits, but the initial delay is an uninterruptible
`time.Sleep`: a run cancelled during the delay still waits out the full
`initialDelay`, and only then observes the cancellation at the first
probing wait, with zero probe attempts and zero signal calls. -/
theorem claimC5_amended (cfg : Cfg) (env : Env) (pf hf : Nat)
    (hp : env.probeSel 0 = true) :
    RunManager cfg env (pf + 1) hf =
      ([Event.sleep cfg.initialDelay], MgrResult.probeFailed ProbeError.ctxCanceled) ∧
    runMonitor cfg true env (pf + 1) hf =
      ([Event.sleep cfg.initialDelay], MonResult.probeFailed ProbeError.ctxCanceled) := by
  constructor
  · simp only [RunManager, probeGameServer]
    rw [probeLoop_cancel _ env cfg.initialDelay 2 pf 0 hp]
    simp
  · simp only [runMonitor, pingProbeAgnostic, if_true]
    rw [probeLoop_cancel _ env cfg.initialDelay 5 pf 0 hp]
    simp

/-- Witness for claim C5 as amended. -/
theorem claimC5_witness :
    RunManager cfgUdp envCancelledAtStart 4 3 =
      ([Event.sleep 30], MgrResult.probeFailed ProbeError.ctxCanceled) :=
  (claimC5_amended cfgUdp envCancelledAtStart 3 3 rfl).1

/-- Claim C8: every return of the readiness loops (`probeGameServer`, the
pegnia `PingProbe.Probe` and the agnostic `PingProbe.Probe`) is either a
nil return whose trace ends in a successful probe attempt, or the
context's cancellation error; a transient probe failure is never
returned. -/
theorem claimC8_probe_loops_return_success_or_cancel_only
    (cfg : Cfg) (env : Env) (t0 fuel : Nat) :
    ((∀ e, (probeGameServer cfg env t0 fuel).2.2 = some (.error e) →
        e = ProbeError.ctxCanceled) ∧
      ((probeGameServer cfg env t0 fuel).2.2 = some (.ok ()) →
        (probeGameServer cfg env t0 fuel).1.getLast? =
          some (.probeAttempt (probeGameServer cfg env t0 fuel).2.1 true))) ∧
    ((∀ e, (pingProbePegnia cfg env t0 fuel).2.2 = some (.error e) →
        e = ProbeError.ctxCanceled) ∧
      ((pingProbePegnia cfg env t0 fuel).2.2 = some (.ok ()) →
        (pingProbePegnia cfg env t0 fuel).1.getLast? =
          some (.probeAttempt (pingProbePegnia cfg env t0 fuel).2.1 true))) ∧
    ((∀ e, (pingProbeAgnostic cfg env t0 fuel).2.2 = some (.error e) →
        e = ProbeError.ctxCanceled) ∧
      ((pingProbeAgnostic cfg env t0 fuel).2.2 = some (.ok ()) →
        (pingProbeAgnostic cfg env t0 fuel).1.getLast? =
          some (.probeAttempt (pingProbeAgnostic cfg env t0 fuel).2.1 true))) := by
  refine ⟨⟨?_, ?_⟩, ⟨?_, ?_⟩, ⟨?_, ?_⟩⟩
  · intro e h
    exact probeLoop_error _ env t0 2 fuel 0 e h
  · intro h
    exact (probeLoop_ok_last _ env t0 2 fuel 0 h).1
  · intro e h
    exact probeLoop_error _ env t0 5 fuel 0 e h
  · intro h
    exact (probeLoop_ok_last _ env t0 5 fuel 0 h).1
  · intro e h
    exact probeLoop_error _ env t0 5 fuel 0 e h
  · intro h
    exact (probeLoop_ok_last _ env t0 5 fuel 0 h).1

/-- Witness for claim C8: a run that succeeds on the second attempt (nil
return, trace ends in the successful attempt), and a cancelled run (error
return is the cancellation cause). -/
theorem claimC8_witness :
    (probeGameServer cfgUdp envDemo 30 5).1.getLast? =
      some (.probeAttempt (probeGameServer cfgUdp envDemo 30 5).2.1 true) ∧
    ProbeError.ctxCanceled = ProbeError.ctxCanceled :=
  ⟨((claimC8_probe_loops_return_success_or_cancel_only cfgUdp envDemo 30 5).1.2
      (by rfl)),
    ((claimC8_probe_loops_return_success_or_cancel_only cfgUdp
      envCancelledAtStart 30 5).1.1 ProbeError.ctxCanceled (by rfl))⟩

/-- Claim C9: a failure of the health-signal call is non-fatal: as long as
the shutdown signal does not arrive, the heartbeat loop keeps ticking
(one health event per tick, whatever the outcomes of the calls, even all
failures) and does not exit; and when it does exit, a `ctx.Done()` branch
was taken — cancellation is the only exit.  At the manager level, a
`terminated`/`graceful` result implies a cancellation branch was taken. -/
theorem claimC9_health_failures_nonfatal (env : Env) (t0 d fuel i : Nat)
    (cfg : Cfg) (pf hf : Nat) :
    ((∀ k, env.hbSel k = false) →
      (healthLoop env t0 d fuel i).2 = none ∧
      (healthLoop env t0 d fuel i).1.length = fuel) ∧
    ((healthLoop env t0 d fuel i).2 = some () → ∃ k, env.hbSel k = true) ∧
    ((RunManager cfg env pf hf).2 = MgrResult.terminated →
      ∃ k, env.hbSel k = true) := by
  refine ⟨fun h => healthLoop_no_cancel env t0 d h fuel i,
    healthLoop_exit env t0 d fuel i, ?_⟩
  intro hterm
  revert hterm
  simp only [RunManager, probeGameServer]
  set att := dialAttempt (lowerString cfg.pingProtocol)
    (joinHostPort cfg.pingHost cfg.pingPort) with hatt
  rcases hp : (probeLoop att env cfg.initialDelay 2 pf 0).2.2 with _ | x
  · simp [hp]
  · cases x with
    | error er => simp [hp]
    | ok u =>
      cases u
      by_cases hr : env.readyOk
      · simp only [hp, hr, if_true]
        rcases hh : (healthLoop env (probeLoop att env cfg.initialDelay 2 pf 0).2.1
            cfg.healthInterval hf 0).2 with _ | v
        · simp [hh]
        · cases v
          intro _
          exact healthLoop_exit env _ cfg.healthInterval hf 0 hh
      · simp only [Bool.not_eq_true] at hr
        simp [hp, hr]

/-- Witness for claim C9: every health call fails and no shutdown arrives;
after 3 ticks the loop has sent 3 (failed) heartbeats and is still
running. -/
theorem claimC9_witness :
    (healthLoop envHealthFail 34 15 3 0).2 = none ∧
      (healthLoop envHealthFail 34 15 3 0).1.length = 3 :=
  (claimC9_health_failures_nonfatal envHealthFail 34 15 3 0 cfgUdp 3 3).1
    (fun _ => rfl)

/-- Claim C6 counterexample: an UDP probe attempt of `probeGameServer`
(`internal/agones/manager.go`) succeeds by a bare dial: the attempt
performs no write at all — contradicting "every UDP probe attempt writes
the bytes "ping" and succeeds iff the write succeeds". -/
theorem claimC6_counterexample :
    dialAttempt (lowerString cfgUdp.pingProtocol)
        (joinHostPort cfgUdp.pingHost cfgUdp.pingPort) attOk =
      ([SockAction.dial "udp" "127.0.0.1:25565", SockAction.close], none) ∧
    ((dialAttempt (lowerString cfgUdp.pingProtocol)
        (joinHostPort cfgUdp.pingHost cfgUdp.pingPort) attOk).1.all
      (fun a => !isWriteAction a)) = true ∧
    (probeGameServer cfgUdp envReadyFail 30 1).2.2 = some (Except.ok ()) := by
  refine ⟨by decide, by decide, by rfl⟩

/-- Claim C6 as amended: the UDP probe attempts of the two `PingProbe.Probe`
variants open a socket and write "ping"; their outcome is success iff the
write succeeds, a write failure becomes the attempt's error, and the
pegnia variant's diagnostic read has no effect on the outcome.  The UDP
attempts of `probeGameServer`, by contrast, perform only a dial and
succeed iff the dial succeeds, never writing. -/
theorem claimC6_amended (addr : String) (a : AttemptEnv) (hd : a.dialErr = none) :
    (SockAction.write "ping" ∈ (pingAttempt "udp" addr a).1) ∧
    ((pingAttempt "udp" addr a).2 = none ↔ a.writeErr = none) ∧
    (∀ e, a.writeErr = some e →
      (pingAttempt "udp" addr a).2 = some (.writeFailed e)) ∧
    (∀ r, (pingAttempt "udp" addr { a with readErr := r }).2 =
      (pingAttempt "udp" addr a).2) ∧
    (SockAction.write "ping" ∈ (pingAttemptSimple "udp" addr a).1) ∧
    ((pingAttemptSimple "udp" addr a).2 = none ↔ a.writeErr = none) ∧
    (∀ b : AttemptEnv, ((dialAttempt "udp" addr b).2 = none ↔ b.dialErr = none) ∧
      (dialAttempt "udp" addr b).1.all (fun x => !isWriteAction x) = true) := by
  rcases a with ⟨ad, aw, ar⟩
  simp only [AttemptEnv.dialErr] at hd
  subst hd
  refine ⟨?_, ?_, ?_, ?_, ?_, ?_, ?_⟩
  · cases aw <;> simp [pingAttempt]
  · cases aw <;> simp [pingAttempt]
  · intro e he
    subst he
    simp [pingAttempt]
  · intro r
    cases aw <;> simp [pingAttempt]
  · cases aw <;> simp [pingAttemptSimple]
  · cases aw <;> simp [pingAttemptSimple]
  · intro b
    rcases b with ⟨bd, bw, br⟩
    cases bd <;> simp [dialAttempt, isWriteAction]

/-- Witness for claim C6 as amended: a concrete UDP attempt whose write
fails: the outcome is exactly that write error. -/
theorem claimC6_witness :
    (pingAttempt "udp" "127.0.0.1:25565"
        ⟨none, some "write: connection refused", some "timeout"⟩).2 =
      some (ProbeError.writeFailed "write: connection refused") :=
  (claimC6_amended "127.0.0.1:25565"
    ⟨none, some "write: connection refused", some "timeout"⟩ rfl).2.2.1
    "write: connection refused" rfl

/-- Claim C7 counterexample: in the agnostic `PingProbe.Probe`
(`internal/probe/probe.go`), an attempt whose transport is "icmp" —
neither tcp nor udp after lower-casing — is routed through the ordinary
dial path (the attempt performs a dial with the raw protocol string) and
its outcome carries the dial error, not a distinct unsupported-transport
cause. -/
theorem claimC7_counterexample :
    lowerString "icmp" ≠ "tcp" ∧ lowerString "icmp" ≠ "udp" ∧
    pingAttemptSimple (lowerString "icmp") "127.0.0.1:25565"
        ⟨some "dial icmp: unknown network icmp", none, none⟩ =
      ([SockAction.dial "icmp" "127.0.0.1:25565"],
        some (ProbeError.dialFailed "dial icmp: unknown network icmp")) := by
  refine ⟨by decide, by decide, by decide⟩

/-- Claim C7 as amended: in the pegnia `PingProbe.Probe`
(`src/unnamed/part_000`), an attempt whose transport is neither "tcp" nor
"udp" after case normalization returns the distinct unsupported-protocol
failure without performing any socket operation; the agnostic variant
instead routes such transports through the ordinary dial path. -/
theorem claimC7_amended (p addr : String) (a : AttemptEnv)
    (h1 : lowerString p ≠ "tcp") (h2 : lowerString p ≠ "udp") :
    pingAttempt (lowerString p) addr a =
      ([], some (.unsupportedProtocol (lowerString p))) := by
  simp only [pingAttempt, if_neg h1, if_neg h2]

/-- Witness for claim C7 as amended at the concrete transport "ICMP". -/
theorem claimC7_witness :
    pingAttempt (lowerString "ICMP") "127.0.0.1:25565" attOk =
      ([], some (ProbeError.unsupportedProtocol (lowerString "ICMP"))) :=
  claimC7_amended "ICMP" "127.0.0.1:25565" attOk (by decide) (by decide)

theorem probeLoop_probe_time (att : AttemptEnv → List SockAction × Option ProbeError)
    (env : Env) (t0 retry fuel i t : Nat) (b : Bool)
    (h : Event.probeAttempt t b ∈ (probeLoop att env t0 retry fuel i).1) :
    t0 + (i + 1) * retry ≤ t := by
  rcases probeLoop_events att env t0 retry fuel i _ h with ⟨t', b', he, hb⟩
  injection he with h1 h2
  omega

theorem healthLoop_health_time (env : Env) (t0 d fuel i t : Nat) (b : Bool)
    (h : Event.health t b ∈ (healthLoop env t0 d fuel i).1) :
    t0 + (i + 1) * d ≤ t := by
  rcases healthLoop_events env t0 d fuel i _ h with ⟨t', b', he, hb⟩
  injection he with h1 h2
  omega

theorem ready_not_mem_probeLoop (att : AttemptEnv → List SockAction × Option ProbeError)
    (env : Env) (t0 retry fuel i t : Nat) (b : Bool) :
    Event.ready t b ∉ (probeLoop att env t0 retry fuel i).1 := by
  intro h
  rcases probeLoop_events att env t0 retry fuel i _ h with ⟨t', b', he, -⟩
  cases he

theorem health_not_mem_probeLoop (att : AttemptEnv → List SockAction × Option ProbeError)
    (env : Env) (t0 retry fuel i t : Nat) (b : Bool) :
    Event.health t b ∉ (probeLoop att env t0 retry fuel i).1 := by
  intro h
  rcases probeLoop_events att env t0 retry fuel i _ h with ⟨t', b', he, -⟩
  cases he

theorem ready_not_mem_healthLoop (env : Env) (t0 d fuel i t : Nat) (b : Bool) :
    Event.ready t b ∉ (healthLoop env t0 d fuel i).1 := by
  intro h
  rcases healthLoop_events env t0 d fuel i _ h with ⟨t', b', he, -⟩
  cases he

theorem probe_not_mem_healthLoop (env : Env) (t0 d fuel i t : Nat) (b : Bool) :
    Event.probeAttempt t b ∉ (healthLoop env t0 d fuel i).1 := by
  intro h
  rcases healthLoop_events env t0 d fuel i _ h with ⟨t', b', he, -⟩
  cases he

theorem c10_core (dl t0 retry d tf : Nat) (ok : Bool) (ptr htr : List Event)
    (hptr_t : ∀ t b, Event.probeAttempt t b ∈ ptr → t0 + retry ≤ t)
    (hptr_r : ∀ t b, Event.ready t b ∉ ptr)
    (hptr_h : ∀ t b, Event.health t b ∉ ptr)
    (hhtr_h : ∀ t b, Event.health t b ∈ htr → tf + d ≤ t)
    (hhtr_r : ∀ t b, Event.ready t b ∉ htr)
    (hhtr_p : ∀ t b, Event.probeAttempt t b ∉ htr)
    (htf : t0 + retry ≤ tf) :
    (∀ t b, Event.probeAttempt t b ∈
      [Event.sleep dl] ++ ptr ++ [Event.ready tf ok] ++ htr → t0 + retry ≤ t) ∧
    (∀ t b, Event.ready t b ∈
      [Event.sleep dl] ++ ptr ++ [Event.ready tf ok] ++ htr → t0 + retry ≤ t) ∧
    (∀ tR bR tH bH,
      Event.ready tR bR ∈ [Event.sleep dl] ++ ptr ++ [Event.ready tf ok] ++ htr →
      Event.health tH bH ∈ [Event.sleep dl] ++ ptr ++ [Event.ready tf ok] ++ htr →
      tR + d ≤ tH) := by
  refine ⟨?_, ?_, ?_⟩
  · intro t b h
    rcases List.mem_append.mp h with h | h
    · rcases List.mem_append.mp h with h | h
      · rcases List.mem_append.mp h with h | h
        · simp at h
        · exact hptr_t t b h
      · simp at h
    · exact absurd h (hhtr_p t b)
  · intro t b h
    rcases List.mem_append.mp h with h | h
    · rcases List.mem_append.mp h with h | h
      · rcases List.mem_append.mp h with h | h
        · simp at h
        · exact absurd h (hptr_r t b)
      · simp only [List.mem_singleton, Event.ready.injEq] at h
        omega
    · exact absurd h (hhtr_r t b)
  · intro tR bR tH bH hR hH
    have htR : tR = tf := by
      rcases List.mem_append.mp hR with h | h
      · rcases List.mem_append.mp h with h | h
        · rcases List.mem_append.mp h with h | h
          · simp at h
          · exact absurd h (hptr_r tR bR)
        · simp only [List.mem_singleton, Event.ready.injEq] at h
          exact h.1
      · exact absurd h (hhtr_r tR bR)
    have htH : tf + d ≤ tH := by
      rcases List.mem_append.mp hH with h | h
      · rcases List.mem_append.mp h with h | h
        · rcases List.mem_append.mp h with h | h
          · simp at h
          · exact absurd h (hptr_h tH bH)
        · simp at h
      · exact hhtr_h tH bH h
    omega

theorem c10_core_noready (dl t0 retry d : Nat) (ptr : List Event)
    (hptr_t : ∀ t b, Event.probeAttempt t b ∈ ptr → t0 + retry ≤ t)
    (hptr_r : ∀ t b, Event.ready t b ∉ ptr) :
    (∀ t b, Event.probeAttempt t b ∈ [Event.sleep dl] ++ ptr → t0 + retry ≤ t) ∧
    (∀ t b, Event.ready t b ∈ [Event.sleep dl] ++ ptr → t0 + retry ≤ t) ∧
    (∀ tR bR tH bH, Event.ready tR bR ∈ [Event.sleep dl] ++ ptr →
      Event.health tH bH ∈ [Event.sleep dl] ++ ptr → tR + d ≤ tH) := by
  refine ⟨?_, ?_, ?_⟩
  · intro t b h
    rcases List.mem_append.mp h with h | h
    · simp at h
    · exact hptr_t t b h
  · intro t b h
    rcases List.mem_append.mp h with h | h
    · simp at h
    · exact absurd h (hptr_r t b)
  · intro tR bR tH bH hR hH
    rcases List.mem_append.mp hR with h | h
    · simp at h
    · exact absurd h (hptr_r tR bR)

theorem runManager_c10 (cfg : Cfg) (env : Env) (pf hf : Nat) :
    (∀ t b, Event.probeAttempt t b ∈ (RunManager cfg env pf hf).1 →
      cfg.initialDelay + 2 ≤ t) ∧
    (∀ t b, Event.ready t b ∈ (RunManager cfg env pf hf).1 →
      cfg.initialDelay + 2 ≤ t) ∧
    (∀ tR bR tH bH, Event.ready tR bR ∈ (RunManager cfg env pf hf).1 →
      Event.health tH bH ∈ (RunManager cfg env pf hf).1 →
      tR + cfg.healthInterval ≤ tH) := by
  simp only [RunManager, probeGameServer]
  set att := dialAttempt (lowerString cfg.pingProtocol)
    (joinHostPort cfg.pingHost cfg.pingPort) with hatt
  have hptr_t : ∀ t b, Event.probeAttempt t b ∈
      (probeLoop att env cfg.initialDelay 2 pf 0).1 → cfg.initialDelay + 2 ≤ t := by
    intro t b h
    have := probeLoop_probe_time att env cfg.initialDelay 2 pf 0 t b h
    omega
  have hptr_r := fun t b => ready_not_mem_probeLoop att env cfg.initialDelay 2 pf 0 t b
  have hptr_h := fun t b => health_not_mem_probeLoop att env cfg.initialDelay 2 pf 0 t b
  rcases hp : (probeLoop att env cfg.initialDelay 2 pf 0).2.2 with _ | x
  · simp only [hp]
    exact c10_core_noready _ _ _ cfg.healthInterval _ hptr_t hptr_r
  · cases x with
    | error er =>
      simp only [hp]
      exact c10_core_noready _ _ _ cfg.healthInterval _ hptr_t hptr_r
    | ok u =>
      cases u
      have htf : cfg.initialDelay + 2 ≤ (probeLoop att env cfg.initialDelay 2 pf 0).2.1 := by
        have := (probeLoop_ok_last att env cfg.initialDelay 2 pf 0 hp).2
        omega
      simp only [hp]
      by_cases hr : env.readyOk
      · simp only [hr, if_true]
        set tf := (probeLoop att env cfg.initialDelay 2 pf 0).2.1 with htfdef
        have hhtr_h : ∀ t b, Event.health t b ∈
            (healthLoop env tf cfg.healthInterval hf 0).1 →
            tf + cfg.healthInterval ≤ t := by
          intro t b h
          have := healthLoop_health_time env tf cfg.healthInterval hf 0 t b h
          omega
        have hhtr_r := fun t b =>
          ready_not_mem_healthLoop env tf cfg.healthInterval hf 0 t b
        have hhtr_p := fun t b =>
          probe_not_mem_healthLoop env tf cfg.healthInterval hf 0 t b
        rcases hh : (healthLoop env tf cfg.healthInterval hf 0).2 with _ | v
        · simp only [hh]
          exact c10_core _ _ _ _ _ _ _ _ hptr_t hptr_r hptr_h hhtr_h hhtr_r hhtr_p htf
        · simp only [hh]
          exact c10_core _ _ _ _ _ _ _ _ hptr_t hptr_r hptr_h hhtr_h hhtr_r hhtr_p htf
      · simp only [hr, if_false]
        have := c10_core cfg.initialDelay cfg.initialDelay 2 cfg.healthInterval
          (probeLoop att env cfg.initialDelay 2 pf 0).2.1 false
          (probeLoop att env cfg.initialDelay 2 pf 0).1 []
          hptr_t hptr_r hptr_h
          (by intro t b h; simp at h) (by intro t b h; simp at h)
          (by intro t b h; simp at h) htf
        simpa using this

theorem runMonitor_c10 (cfg : Cfg) (sdkOk : Bool) (env : Env) (pf hf : Nat) :
    (∀ t b, Event.probeAttempt t b ∈ (runMonitor cfg sdkOk env pf hf).1 →
      cfg.initialDelay + 5 ≤ t) ∧
    (∀ t b, Event.ready t b ∈ (runMonitor cfg sdkOk env pf hf).1 →
      cfg.initialDelay + 5 ≤ t) ∧
    (∀ tR bR tH bH, Event.ready tR bR ∈ (runMonitor cfg sdkOk env pf hf).1 →
      Event.health tH bH ∈ (runMonitor cfg sdkOk env pf hf).1 →
      tR + cfg.healthInterval ≤ tH) := by
  by_cases hsdk : sdkOk
  · simp only [runMonitor, pingProbeAgnostic, hsdk, if_true]
    set att := pingAttemptSimple (lowerString cfg.pingProtocol)
      (joinHostPort cfg.pingHost cfg.pingPort) with hatt
    have hptr_t : ∀ t b, Event.probeAttempt t b ∈
        (probeLoop att env cfg.initialDelay 5 pf 0).1 → cfg.initialDelay + 5 ≤ t := by
      intro t b h
      have := probeLoop_probe_time att env cfg.initialDelay 5 pf 0 t b h
      omega
    have hptr_r := fun t b => ready_not_mem_probeLoop att env cfg.initialDelay 5 pf 0 t b
    have hptr_h := fun t b => health_not_mem_probeLoop att env cfg.initialDelay 5 pf 0 t b
    rcases hp : (probeLoop att env cfg.initialDelay 5 pf 0).2.2 with _ | x
    · simp only [hp]
      exact c10_core_noready _ _ _ cfg.healthInterval _ hptr_t hptr_r
    · cases x with
      | error er =>
        simp only [hp]
        exact c10_core_noready _ _ _ cfg.healthInterval _ hptr_t hptr_r
      | ok u =>
        cases u
        have htf : cfg.initialDelay + 5 ≤
            (probeLoop att env cfg.initialDelay 5 pf 0).2.1 := by
          have := (probeLoop_ok_last att env cfg.initialDelay 5 pf 0 hp).2
          omega
        simp only [hp]
        by_cases hr : env.readyOk
        · simp only [hr, if_true]
          set tf := (probeLoop att env cfg.initialDelay 5 pf 0).2.1 with htfdef
          have hhtr_h : ∀ t b, Event.health t b ∈
              (healthLoop env tf cfg.healthInterval hf 0).1 →
              tf + cfg.healthInterval ≤ t := by
            intro t b h
            have := healthLoop_health_time env tf cfg.healthInterval hf 0 t b h
            omega
          have hhtr_r := fun t b =>
            ready_not_mem_healthLoop env tf cfg.healthInterval hf 0 t b
          have hhtr_p := fun t b =>
            probe_not_mem_healthLoop env tf cfg.healthInterval hf 0 t b
          rcases hh : (healthLoop env tf cfg.healthInterval hf 0).2 with _ | v
          · simp only [hh]
            exact c10_core _ _ _ _ _ _ _ _ hptr_t hptr_r hptr_h hhtr_h hhtr_r hhtr_p htf
          · simp only [hh]
            exact c10_core _ _ _ _ _ _ _ _ hptr_t hptr_r hptr_h hhtr_h hhtr_r hhtr_p htf
        · simp only [hr, if_false]
          have := c10_core cfg.initialDelay cfg.initialDelay 5 cfg.healthInterval
            (probeLoop att env cfg.initialDelay 5 pf 0).2.1 false
            (probeLoop att env cfg.initialDelay 5 pf 0).1 []
            hptr_t hptr_r hptr_h
            (by intro t b h; simp at h) (by intro t b h; simp at h)
            (by intro t b h; simp at h) htf
          simpa using this
  · simp [runMonitor, hsdk]

/-- Claim C10: the retry and heartbeat tickers never fire immediately: in
every `RunManager` run, every probe attempt — and hence the ready signal —
occurs no earlier than `initialDelay + 2` (one full 2-second retry
interval after the probing loop starts), and every health signal occurs no
earlier than one full `healthInterval` after the ready signal; likewise
for `runMonitor` with its 5-second retry ticker. -/
theorem claimC10_tickers_never_fire_immediately
    (cfg : Cfg) (env : Env) (pf hf : Nat) (sdkOk : Bool) :
    ((∀ t b, Event.probeAttempt t b ∈ (RunManager cfg env pf hf).1 →
        cfg.initialDelay + 2 ≤ t) ∧
      (∀ t b, Event.ready t b ∈ (RunManager cfg env pf hf).1 →
        cfg.initialDelay + 2 ≤ t) ∧
      (∀ tR bR tH bH, Event.ready tR bR ∈ (RunManager cfg env pf hf).1 →
        Event.health tH bH ∈ (RunManager cfg env pf hf).1 →
        tR + cfg.healthInterval ≤ tH)) ∧
    ((∀ t b, Event.probeAttempt t b ∈ (runMonitor cfg sdkOk env pf hf).1 →
        cfg.initialDelay + 5 ≤ t) ∧
      (∀ t b, Event.ready t b ∈ (runMonitor cfg sdkOk env pf hf).1 →
        cfg.initialDelay + 5 ≤ t) ∧
      (∀ tR bR tH bH, Event.ready tR bR ∈ (runMonitor cfg sdkOk env pf hf).1 →
        Event.health tH bH ∈ (runMonitor cfg sdkOk env pf hf).1 →
        tR + cfg.healthInterval ≤ tH)) :=
  ⟨runManager_c10 cfg env pf hf, runMonitor_c10 cfg sdkOk env pf hf⟩

/-- Witness for claim C10 on a concrete run: the first probe of the manager
happens at 32 = 30 + 2, the ready signal at 34 ≥ 32, and the first health
signal at 49 = 34 + 15. -/
theorem claimC10_witness :
    30 + 2 ≤ 32 ∧ 30 + 2 ≤ 34 ∧ 34 + 15 ≤ 49 :=
  ⟨(claimC10_tickers_never_fire_immediately cfgUdp envDemo 5 5 true).1.1
      32 false (by decide),
    (claimC10_tickers_never_fire_immediately cfgUdp envDemo 5 5 true).1.2.1
      34 true (by decide),
    (claimC10_tickers_never_fire_immediately cfgUdp envDemo 5 5 true).1.2.2
      34 true 49 true (by decide) (by decide)⟩
